import Mathlib

/-!
Verification development for the RGB stash persistence layer
(`src/stashd/storage/disk.rs`, `src/stashd/storage/mod.rs`,
`src/stashd/index/index.rs`).

The filesystem is modelled as a finite map from paths (lists of
components) to byte strings, together with the set of directories and a
set of paths whose metadata access fails with a non-NotFound I/O error
(modelling permission failures and the like).  Rust's `Path::exists`
swallows such failures and reports `false`; the model mirrors that.

Artifact encode/decode and identifier-to-text conversion are external
(bech32 / hex / strict encoding), so store operations are parameterised
by a `Codec`.  Functions living in `crate::util::file` (not part of the
excerpt) are modelled from the specification and marked as such in their
doc comments.
-/

deriving instance DecidableEq for Except

namespace RgbStash

abbrev Bytes := List Nat

abbrev Path := List String

/-- Error taxonomy: `io` and `notFound` correspond to `io::Error` values
(`NotFound` being its distinguished kind), `corrupt` to
`strict_encoding` decode failures (`DiskStorageError::Encoding`),
`brokenFilename` to `DiskStorageError::BrokenFilenames`, and `conflict`
to the anchor-index conflict error of spec section 4.2. -/
inductive StoreErr where
  | io
  | notFound
  | corrupt
  | brokenFilename
  | conflict
deriving DecidableEq

/-- Primitive filesystem mutations, used to express whether a write goes
through a temporary file plus rename or directly to the final path. -/
inductive FsOp where
  | write (p : Path) (b : Bytes)
  | rename (src dst : Path)
deriving DecidableEq

/-- Filesystem state: files (association list path to contents),
directories, and paths whose metadata access fails with a non-NotFound
I/O error. -/
structure FS where
  files : List (Path × Bytes)
  dirs : List Path
  broken : List Path
deriving DecidableEq

def FS.lookupFile (fs : FS) (p : Path) : Option Bytes :=
  (fs.files.find? (fun e => decide (e.1 = p))).map (fun e => e.2)

def FS.isFile (fs : FS) (p : Path) : Bool :=
  (fs.lookupFile p).isSome

def FS.isDir (fs : FS) (p : Path) : Bool :=
  fs.dirs.any (fun q => decide (q = p))

def FS.isBroken (fs : FS) (p : Path) : Bool :=
  fs.broken.any (fun q => decide (q = p))

/-- Rust `Path::exists`: true iff `metadata` succeeds; any metadata
error (absence as well as lower-level I/O failure) yields `false`. -/
def FS.pathExists (fs : FS) (p : Path) : Bool :=
  !fs.isBroken p && (fs.isFile p || fs.isDir p)

/-- The non-empty ancestor chain of a path, shortest first (for a path
`a/b/c` this is `a`, `a/b`, `a/b/c`), as created by
`fs::create_dir_all`. -/
def ancestorsOf (p : Path) : List Path :=
  (List.range p.length).map (fun i => p.take (i + 1))

/-- Rust `fs::create_dir_all`: creates every missing directory on the
chain; fails if a regular file occupies one of the positions. -/
def FS.create_dir_all (fs : FS) (p : Path) : Except StoreErr FS :=
  if (ancestorsOf p).any (fun q => fs.isFile q) then .error .io
  else .ok { fs with
    dirs := (ancestorsOf p).foldl
      (fun ds q => if ds.any (fun r => decide (r = q)) then ds else ds ++ [q])
      fs.dirs }

/-- Replace or insert the binding of `p` in the file table. -/
def FS.setFile (fs : FS) (p : Path) (b : Bytes) : FS :=
  { fs with files := (p, b) :: fs.files.filter (fun e => !decide (e.1 = p)) }

/-- Rust `fs::remove_file`: unlink; errors with `NotFound` when the file
is absent, and with a plain I/O error when the path is inaccessible. -/
def FS.remove_file (fs : FS) (p : Path) : Except StoreErr FS :=
  if fs.isBroken p then .error .io
  else if fs.isFile p then
    .ok { fs with files := fs.files.filter (fun e => !decide (e.1 = p)) }
  else .error .notFound

/-- Effect of one primitive mutation.  A write requires the parent
directory to exist and the target to be neither broken nor a
directory. -/
def FS.applyOp (fs : FS) : FsOp → Except StoreErr FS
  | .write p b =>
    if fs.isBroken p then .error .io
    else if fs.isDir p then .error .io
    else if fs.isDir p.dropLast then .ok (fs.setFile p b)
    else .error .io
  | .rename src dst =>
    if fs.isBroken src || fs.isBroken dst then .error .io
    else match fs.lookupFile src with
      | none => .error .notFound
      | some b =>
        if fs.isDir dst then .error .io
        else .ok (({ fs with
          files := fs.files.filter (fun e => !decide (e.1 = src)) }).setFile dst b)

def FS.runOps (fs : FS) : List FsOp → Except StoreErr FS
  | [] => .ok fs
  | op :: rest =>
    match fs.applyOp op with
    | .error e => .error e
    | .ok fs2 => fs2.runOps rest

/-! ## Filename handling (`Path::with_extension`, file stems) -/

/-- Index of the last `'.'` in a component, if any. -/
def lastDotIdx : List Char → Option Nat
  | [] => none
  | c :: rest =>
    match lastDotIdx rest with
    | some i => some (i + 1)
    | none => if c = '.' then some 0 else none

/-- Rust `Path::file_stem` on one component: everything before the last
dot, except that a leading dot with no other dot marks no extension. -/
def fileStem (name : List Char) : List Char :=
  match lastDotIdx name with
  | none => name
  | some 0 => name
  | some i => name.take i

/-- Rust `Path::extension` on one component. -/
def fileExt (name : List Char) : Option (List Char) :=
  match lastDotIdx name with
  | none => none
  | some 0 => none
  | some i => some (name.drop (i + 1))

/-- Rust `Path::with_extension` on one component (the extension
argument is non-empty in every use below). -/
def withExtension (name ext : List Char) : List Char :=
  fileStem name ++ '.' :: ext

def withExtensionStr (name ext : String) : String :=
  ⟨withExtension name.data ext.data⟩

def fileStemStr (s : String) : String := ⟨fileStem s.data⟩

/-! ## Disk storage configuration and path computation -/

/-- `DiskStorageConfig` of `disk.rs`: a single root directory. -/
structure DiskStorageConfig where
  data_dir : Path
deriving DecidableEq

/-- `DiskStorageConfig::RGB_FILE_EXT`. -/
def RGB_FILE_EXT : String := "rgb"

def DiskStorageConfig.schemata_dir (cfg : DiskStorageConfig) : Path :=
  cfg.data_dir ++ ["schemata"]

def DiskStorageConfig.geneses_dir (cfg : DiskStorageConfig) : Path :=
  cfg.data_dir ++ ["geneses"]

def DiskStorageConfig.anchors_dir (cfg : DiskStorageConfig) : Path :=
  cfg.data_dir ++ ["anchors"]

def DiskStorageConfig.transitions_dir (cfg : DiskStorageConfig) : Path :=
  cfg.data_dir ++ ["transitions"]

def DiskStorageConfig.extensions_dir (cfg : DiskStorageConfig) : Path :=
  cfg.data_dir ++ ["extensions"]

/-- `schema_filename`, with the identifier already rendered to its
textual (bech32) form — the rendering itself is the external codec. -/
def DiskStorageConfig.schema_filename (cfg : DiskStorageConfig) (idText : String) : Path :=
  cfg.schemata_dir ++ [withExtensionStr idText RGB_FILE_EXT]

def DiskStorageConfig.genesis_filename (cfg : DiskStorageConfig) (idText : String) : Path :=
  cfg.geneses_dir ++ [withExtensionStr idText RGB_FILE_EXT]

def DiskStorageConfig.anchor_filename (cfg : DiskStorageConfig) (idText : String) : Path :=
  cfg.anchors_dir ++ [withExtensionStr idText RGB_FILE_EXT]

def DiskStorageConfig.transition_filename (cfg : DiskStorageConfig) (idText : String) : Path :=
  cfg.transitions_dir ++ [withExtensionStr idText RGB_FILE_EXT]

def DiskStorageConfig.extension_filename (cfg : DiskStorageConfig) (idText : String) : Path :=
  cfg.extensions_dir ++ [withExtensionStr idText RGB_FILE_EXT]

/-- The five artifact kinds of the store. -/
inductive Kind where
  | schema
  | genesis
  | anchor
  | transition
  | extension
deriving DecidableEq

def kindSubdir : Kind → String
  | .schema => "schemata"
  | .genesis => "geneses"
  | .anchor => "anchors"
  | .transition => "transitions"
  | .extension => "extensions"

/-- Kind-indexed view of the five `*_filename` functions. -/
def artifact_filename (cfg : DiskStorageConfig) (K : Kind) (idText : String) : Path :=
  match K with
  | .schema => cfg.schema_filename idText
  | .genesis => cfg.genesis_filename idText
  | .anchor => cfg.anchor_filename idText
  | .transition => cfg.transition_filename idText
  | .extension => cfg.extension_filename idText

/-- Hexadecimal rendering of a byte string (`to_hex` textual form of
`NodeId` and `AnchorId`). -/
def hexDigit (n : Nat) : Char :=
  if n < 10 then Char.ofNat (48 + n) else Char.ofNat (87 + n)

def bytesToHex (bs : Bytes) : String :=
  ⟨bs.foldr (fun b acc => hexDigit (b / 16) :: hexDigit (b % 16) :: acc) []⟩

/-! ## Store construction (`DiskStorage::new`) -/

/-- `DiskStorage::new`: for the data directory and then the schemata,
geneses, anchors and transitions sub-directories, checks `exists()` and
calls `create_dir_all` on the missing ones.  (The source contains no
such block for the extensions sub-directory.) -/
def DiskStorage.new (cfg : DiskStorageConfig) (fs0 : FS) : Except StoreErr FS := do
  let fs1 ← if fs0.pathExists cfg.data_dir then pure fs0
            else fs0.create_dir_all cfg.data_dir
  let fs2 ← if fs1.pathExists cfg.schemata_dir then pure fs1
            else fs1.create_dir_all cfg.schemata_dir
  let fs3 ← if fs2.pathExists cfg.geneses_dir then pure fs2
            else fs2.create_dir_all cfg.geneses_dir
  let fs4 ← if fs3.pathExists cfg.anchors_dir then pure fs3
            else fs3.create_dir_all cfg.anchors_dir
  let fs5 ← if fs4.pathExists cfg.transitions_dir then pure fs4
            else fs4.create_dir_all cfg.transitions_dir
  pure fs5

/-! ## Store operations -/

/-- External codec boundary for one artifact kind: strict binary
encode/decode plus the textual form of the content-derived
identifier. -/
structure Codec (α : Type) where
  encode : α → Bytes
  decode : Bytes → Option α
  ident : α → String

/-- Modelled from the spec: `read_file` of `crate::util::file` is not in
the excerpt; per spec section 4.1, `get` reads and decodes, failing with
`NotFound` if the file is absent, `Corrupt` if decoding fails and `Io`
on lower-level failure. -/
def read_file {α : Type} (dec : Bytes → Option α) (fs : FS) (p : Path) :
    Except StoreErr α :=
  if fs.isBroken p then .error .io
  else match fs.lookupFile p with
    | none => .error .notFound
    | some b =>
      match dec b with
      | none => .error .corrupt
      | some x => .ok x

/-- Modelled from the spec: `write_file` of `crate::util::file` is not
in the excerpt; per spec section 9, the excerpted implementation writes
the encoded bytes directly to the final path, with no temporary file and
no rename. -/
def write_file_ops (p : Path) (b : Bytes) : List FsOp :=
  [.write p b]

def write_file (fs : FS) (p : Path) (b : Bytes) : Except StoreErr FS :=
  fs.runOps (write_file_ops p b)

/-- `add_schema` / `add_genesis` / `add_anchor` / `add_transition` /
`add_extension`: compute the filename from the artifact's identifier,
record whether a file already exists there, write, and return the
recorded flag. -/
def addArtifact {α : Type} (cfg : DiskStorageConfig) (K : Kind) (c : Codec α)
    (fs : FS) (x : α) : Except StoreErr (FS × Bool) :=
  let filename := artifact_filename cfg K (c.ident x)
  let ex := fs.pathExists filename
  match write_file fs filename (c.encode x) with
  | .error e => .error e
  | .ok fs2 => .ok (fs2, ex)

/-- `schema` / `genesis` / `anchor` / `transition` / `extension`:
read and decode the file at the computed path. -/
def getArtifact {α : Type} (cfg : DiskStorageConfig) (K : Kind)
    (dec : Bytes → Option α) (fs : FS) (idText : String) : Except StoreErr α :=
  read_file dec fs (artifact_filename cfg K idText)

/-- `has_schema` / `has_genesis` / `has_anchor` / `has_transition` /
`has_extension`: `Ok(path.exists())`. -/
def hasArtifact (cfg : DiskStorageConfig) (K : Kind) (fs : FS)
    (idText : String) : Except StoreErr Bool :=
  .ok (fs.pathExists (artifact_filename cfg K idText))

/-- `remove_schema` / `remove_genesis` / `remove_anchor` /
`remove_transition` / `remove_extension`: record `exists()`, call
`fs::remove_file` (whose error propagates through `?`), and return the
recorded flag. -/
def removeArtifact (cfg : DiskStorageConfig) (K : Kind) (fs : FS)
    (idText : String) : Except StoreErr (FS × Bool) :=
  let filename := artifact_filename cfg K idText
  let existed := fs.pathExists filename
  match fs.remove_file filename with
  | .error e => .error e
  | .ok fs2 => .ok (fs2, existed)

/-! ## Listing (`schema_ids`, `contract_ids`) -/

/-- Rust `str::replace` restricted by fuel: replaces the non-overlapping
occurrences of `pat` left to right.  With `fuel` at least the length of
the subject and a non-empty pattern the fuel never runs out. -/
def replaceFuel (pat rep : List Char) : Nat → List Char → List Char
  | 0, s => s
  | _ + 1, [] => []
  | n + 1, c :: rest =>
    if pat.isPrefixOf (c :: rest) then
      rep ++ replaceFuel pat rep n ((c :: rest).drop pat.length)
    else
      c :: replaceFuel pat rep n rest

/-- Rust `str::replace` on strings, as called by
`name.replace(".rgb", "")`. -/
def rustReplace (s pat rep : String) : String :=
  ⟨replaceFuel pat.data rep.data s.data.length s.data⟩

def rgbChars : List Char := ['.', 'r', 'g', 'b']

/-- Modelled from the spec: `read_dir_filenames` of `crate::util::file`
is not in the excerpt; per spec section 4.1, listing enumerates the
directory entries and filters by the `.rgb` extension, returning the
file names (extension included, as the caller strips it itself). -/
def read_dir_filenames (fs : FS) (dir : Path) (ext : List Char) :
    Except StoreErr (List String) :=
  if fs.isDir dir then
    .ok ((fs.files.filter (fun e =>
        decide (e.1.dropLast = dir) &&
        decide (fileExt (e.1.getLastD "").data = some ext))).map
      (fun e => e.1.getLastD ""))
  else .error .io

/-- The per-entry fold body of `schema_ids` / `contract_ids`: strip via
`name.replace(".rgb", "")`, then parse with the kind's textual decoder
(`from_bech32_str`), a parse failure becoming `BrokenFilenames`. -/
def parseNames {ι : Type} (d : String → Option ι) :
    List String → Except StoreErr (List ι)
  | [] => .ok []
  | n :: rest =>
    match d (rustReplace n ".rgb" "") with
    | none => .error .brokenFilename
    | some i =>
      match parseNames d rest with
      | .error e => .error e
      | .ok l => .ok (i :: l)

/-- `schema_ids` (and, at the geneses directory, `contract_ids`),
parameterised by the external textual decoder. -/
def schema_ids {ι : Type} (cfg : DiskStorageConfig) (d : String → Option ι)
    (fs : FS) : Except StoreErr (List ι) :=
  match read_dir_filenames fs cfg.schemata_dir RGB_FILE_EXT.data with
  | .error e => .error e
  | .ok names => parseNames d names

/-! ## Anchor index (spec section 4.2; `Index` is only a trait in the
excerpt, so the implementation is modelled from the spec) -/

/-- Modelled from the spec: an anchor carries a Merkle block whose
leaves are transition identifiers; identifiers are kept abstract as
numbers. -/
structure Anchor where
  anchorId : Nat
  leaves : List Nat
deriving DecidableEq

abbrev IndexMap := List (Nat × Nat)

def lookupIdx : IndexMap → Nat → Option Nat
  | [], _ => none
  | (k, v) :: rest, t => if k = t then some v else lookupIdx rest t

/-- Modelled from the spec: `anchor_id_by_transition_id` returns the
mapped anchor identifier or `NotFound`. -/
def anchor_id_by_transition_id (m : IndexMap) (t : Nat) : Except StoreErr Nat :=
  match lookupIdx m t with
  | some a => .ok a
  | none => .error .notFound

/-- Modelled from the spec: `index_anchor` inserts `(t, anchor_id a)`
for every leaf `t` of the anchor's Merkle block, fails with `Conflict`
(leaving the index unchanged) if some leaf is already bound to a
different anchor, and returns whether any new mapping was installed. -/
def index_anchor (m : IndexMap) (a : Anchor) : Except StoreErr (IndexMap × Bool) :=
  if a.leaves.any (fun t =>
      match lookupIdx m t with
      | some v => decide (v ≠ a.anchorId)
      | none => false) then
    .error .conflict
  else
    let fresh := a.leaves.filter (fun t => (lookupIdx m t).isNone)
    .ok (m ++ fresh.map (fun t => (t, a.anchorId)), !fresh.isEmpty)

/-- Toy codec on numbers used to exercise the store theorems on
concrete inputs. -/
def natCodec : Codec Nat :=
  ⟨fun n => [n], fun b => b.head?, fun _ => "x"⟩

/-! ## Helper lemmas -/

theorem replaceFuel_nil (pat rep : List Char) (n : Nat) :
    replaceFuel pat rep n [] = [] := by
  cases n <;> rfl

theorem string_eq_of_data {a b : String} (h : a.data = b.data) : a = b := by
  cases a; cases b; exact congrArg String.mk h

theorem string_data_append (a b : String) : (a ++ b).data = a.data ++ b.data := by
  cases a; cases b; rfl

theorem lastDotIdx_eq_none (cs : List Char) (h : ∀ c ∈ cs, c ≠ '.') :
    lastDotIdx cs = none := by
  induction cs with
  | nil => rfl
  | cons c rest ih =>
    have hr : lastDotIdx rest = none :=
      ih (fun d hd => h d (List.mem_cons_of_mem _ hd))
    have hc : ¬(c = '.') := h c (List.mem_cons_self _ _)
    simp [lastDotIdx, hr, hc]

theorem withExtensionStr_nodot (s : String) (h : ∀ c ∈ s.data, c ≠ '.') :
    withExtensionStr s RGB_FILE_EXT = s ++ ".rgb" := by
  have hd : lastDotIdx s.data = none := lastDotIdx_eq_none s.data h
  apply string_eq_of_data
  rw [string_data_append]
  show withExtension s.data RGB_FILE_EXT.data = s.data ++ (".rgb" : String).data
  unfold withExtension fileStem
  rw [hd]
  show s.data ++ ('.' :: RGB_FILE_EXT.data) = s.data ++ (".rgb" : String).data
  congr 1

theorem find?_filter_ne_none (l : List (Path × Bytes)) (p : Path) :
    (l.filter (fun e => !decide (e.1 = p))).find? (fun e => decide (e.1 = p))
      = none := by
  induction l with
  | nil => rfl
  | cons e l ih =>
    simp only [List.filter_cons]
    by_cases h : e.1 = p
    · simp [h, ih]
    · simp [h, List.find?_cons, ih]

/-! ## Claim theorems -/

/-- Claim C1 (code bug evidence): constructing the store against an
empty root creates the schemata, geneses, anchors and transitions
sub-directories but leaves the extensions sub-directory missing,
contradicting the claim that all five kind sub-directories are
created. -/
theorem new_empty_root_missing_extensions_dir :
    (match DiskStorage.new ⟨["root"]⟩ ⟨[], [["root"]], []⟩ with
     | .ok fs =>
        fs.isDir ["root", "schemata"] && fs.isDir ["root", "geneses"] &&
        fs.isDir ["root", "anchors"] && fs.isDir ["root", "transitions"] &&
        !fs.isDir ["root", "extensions"]
     | .error _ => false) = true := by decide

/-- Claim C2 (counterexample): removing an artifact that is not present
does not return normally with `false`; `fs::remove_file`'s `NotFound`
error propagates instead. -/
theorem remove_absent_artifact_errors :
    removeArtifact ⟨["r"]⟩ .schema ⟨[], [["r"], ["r", "schemata"]], []⟩ "x"
      = .error .notFound := by decide

/-- Claim C2 (amended): on an accessible path, `remove` returns `true`
and unlinks the file when it exists, and fails with the propagated
`NotFound` filesystem error (rather than returning `false`) when it
does not. -/
theorem removeArtifact_semantics (cfg : DiskStorageConfig) (K : Kind)
    (fs : FS) (idText : String)
    (hnb : fs.isBroken (artifact_filename cfg K idText) = false) :
    (fs.isFile (artifact_filename cfg K idText) = true →
      ∃ fs2, removeArtifact cfg K fs idText = .ok (fs2, true)
        ∧ fs2.isFile (artifact_filename cfg K idText) = false)
    ∧ (fs.isFile (artifact_filename cfg K idText) = false →
      removeArtifact cfg K fs idText = .error .notFound) := by
  constructor
  · intro hf
    refine ⟨{ fs with files := fs.files.filter fun e => !decide (e.1 = artifact_filename cfg K idText) }, ?_, ?_⟩
    · simp [removeArtifact, FS.remove_file, FS.pathExists, hnb, hf]
    · simp [FS.isFile, FS.lookupFile, find?_filter_ne_none]
  · intro hf
    simp [removeArtifact, FS.remove_file, hnb, hf]

/-- Claim C2 (witness for the amended theorem): removing a present
schema returns `true` and deletes the file; removing it from an empty
store fails with `NotFound`. -/
theorem removeArtifact_semantics_witness :
    (∃ fs2, removeArtifact ⟨["r"]⟩ .schema
        ⟨[(["r", "schemata", "x.rgb"], [5])], [["r"], ["r", "schemata"]], []⟩ "x"
        = .ok (fs2, true)
      ∧ fs2.isFile (artifact_filename ⟨["r"]⟩ .schema "x") = false)
    ∧ removeArtifact ⟨["r"]⟩ .schema ⟨[], [["r"], ["r", "schemata"]], []⟩ "x"
      = .error .notFound :=
  ⟨(removeArtifact_semantics ⟨["r"]⟩ .schema
      ⟨[(["r", "schemata", "x.rgb"], [5])], [["r"], ["r", "schemata"]], []⟩ "x"
      (by decide)).1 (by decide),
   (removeArtifact_semantics ⟨["r"]⟩ .schema
      ⟨[], [["r"], ["r", "schemata"]], []⟩ "x" (by decide)).2 (by decide)⟩

/-- Claim C7 (code bug evidence): the write performed by `put` is a
single direct write to the final path — no temporary sibling file and
no rename. -/
theorem write_file_ops_direct_write :
    write_file_ops (artifact_filename ⟨["r"]⟩ .schema "x") [0, 1]
      = [FsOp.write (artifact_filename ⟨["r"]⟩ .schema "x") [0, 1]] := rfl

/-- Claim C9: the storage path of `(K, id)` is a function of the
configured root, the kind and the identifier's textual form alone, and
(the textual forms being dot-free) equals the root joined with the
kind's sub-directory and the textual form carrying the fixed `.rgb`
extension. -/
theorem artifact_filename_path_shape (cfg : DiskStorageConfig) (K : Kind)
    (idText : String) (h : ∀ c ∈ idText.data, c ≠ '.') :
    artifact_filename cfg K idText
      = cfg.data_dir ++ [kindSubdir K, idText ++ ".rgb"] := by
  have hw : withExtensionStr idText RGB_FILE_EXT = idText ++ ".rgb" :=
    withExtensionStr_nodot idText h
  cases K <;>
    simp [artifact_filename, DiskStorageConfig.schema_filename,
      DiskStorageConfig.genesis_filename, DiskStorageConfig.anchor_filename,
      DiskStorageConfig.transition_filename,
      DiskStorageConfig.extension_filename,
      DiskStorageConfig.schemata_dir, DiskStorageConfig.geneses_dir,
      DiskStorageConfig.anchors_dir, DiskStorageConfig.transitions_dir,
      DiskStorageConfig.extensions_dir, kindSubdir, hw, List.append_assoc]

/-- Claim C9 (witness): the anchor path of a hex-rendered identifier. -/
theorem artifact_filename_path_shape_witness :
    artifact_filename ⟨["r"]⟩ .anchor (bytesToHex [171])
      = ["r"] ++ [kindSubdir .anchor, bytesToHex [171] ++ ".rgb"] :=
  artifact_filename_path_shape ⟨["r"]⟩ .anchor (bytesToHex [171]) (by decide)

/-- Claim C10: `has` is total over the store's error channel — it is
always `Ok` of the `Path::exists` probe, and that probe reports `false`
both when nothing is at the path and when the path's metadata is
inaccessible. -/
theorem hasArtifact_total (cfg : DiskStorageConfig) (K : Kind) (fs : FS)
    (idText : String) :
    hasArtifact cfg K fs idText
        = .ok (fs.pathExists (artifact_filename cfg K idText))
    ∧ (fs.isBroken (artifact_filename cfg K idText) = true →
        hasArtifact cfg K fs idText = .ok false)
    ∧ (fs.isFile (artifact_filename cfg K idText) = false ∧
        fs.isDir (artifact_filename cfg K idText) = false →
        hasArtifact cfg K fs idText = .ok false) := by
  refine ⟨rfl, ?_, ?_⟩
  · intro h
    simp [hasArtifact, FS.pathExists, h]
  · rintro ⟨h1, h2⟩
    simp [hasArtifact, FS.pathExists, h1, h2]

/-- Claim C10 (witness): `has` answers `Ok false` on an inaccessible
path and on an absent file. -/
theorem hasArtifact_total_witness :
    hasArtifact ⟨["r"]⟩ .schema ⟨[], [], [["r", "schemata", "x.rgb"]]⟩ "x"
      = .ok false
    ∧ hasArtifact ⟨["r"]⟩ .schema ⟨[], [], []⟩ "x" = .ok false :=
  ⟨(hasArtifact_total ⟨["r"]⟩ .schema ⟨[], [], [["r", "schemata", "x.rgb"]]⟩
      "x").2.1 (by decide),
   (hasArtifact_total ⟨["r"]⟩ .schema ⟨[], [], []⟩ "x").2.2
      ⟨by decide, by decide⟩⟩

theorem write_file_eq_applyOp (fs : FS) (p : Path) (b : Bytes) :
    write_file fs p b = fs.applyOp (.write p b) := by
  unfold write_file write_file_ops FS.runOps
  cases h : fs.applyOp (.write p b) with
  | error e => rfl
  | ok fs2 => simp [FS.runOps]

theorem setFile_lookup (fs : FS) (p : Path) (b : Bytes) :
    (fs.setFile p b).lookupFile p = some b := by
  simp [FS.setFile, FS.lookupFile, List.find?]

theorem setFile_broken (fs : FS) (p : Path) (b : Bytes) (q : Path) :
    (fs.setFile p b).isBroken q = fs.isBroken q := rfl

theorem setFile_dirs (fs : FS) (p : Path) (b : Bytes) (q : Path) :
    (fs.setFile p b).isDir q = fs.isDir q := rfl

theorem setFile_idem (fs : FS) (p : Path) (b : Bytes) :
    (fs.setFile p b).setFile p b = fs.setFile p b := by
  simp [FS.setFile, List.filter_filter]

theorem write_file_ok {fs fs1 : FS} {p : Path} {b : Bytes}
    (h : write_file fs p b = .ok fs1) :
    fs.isBroken p = false ∧ fs.isDir p = false ∧ fs.isDir p.dropLast = true
      ∧ fs1 = fs.setFile p b := by
  rw [write_file_eq_applyOp] at h
  unfold FS.applyOp at h
  by_cases h1 : fs.isBroken p = true
  · simp [h1] at h
  · by_cases h2 : fs.isDir p = true
    · simp [h1, h2] at h
    · by_cases h3 : fs.isDir p.dropLast = true
      · simp only [h1, h2, h3, if_true, if_false, Bool.false_eq_true,
          ite_false, ite_true, Except.ok.injEq] at h
        exact ⟨by simpa using h1, by simpa using h2, h3, h.symm⟩
      · simp [h1, h2, h3] at h

/-- Claim C5: `put` returns whether a file already existed at the
artifact's path — `false` on a first put into a store not containing
the identifier — and an immediately repeated put of the same artifact
returns `true` while leaving the store state unchanged. -/
theorem addArtifact_put_semantics {α : Type} (cfg : DiskStorageConfig)
    (K : Kind) (c : Codec α) (fs fs1 : FS) (x : α) (b1 : Bool)
    (h : addArtifact cfg K c fs x = .ok (fs1, b1)) :
    (fs.pathExists (artifact_filename cfg K (c.ident x)) = false → b1 = false)
    ∧ addArtifact cfg K c fs1 x = .ok (fs1, true) := by
  simp only [addArtifact] at h ⊢
  cases hw : write_file fs (artifact_filename cfg K (c.ident x)) (c.encode x) with
  | error e => rw [hw] at h; exact absurd h (by simp)
  | ok fs2 =>
    rw [hw] at h
    simp only [Except.ok.injEq, Prod.mk.injEq] at h
    obtain ⟨hfs, hb⟩ := h
    obtain ⟨hbr, hdir, hparent, hset⟩ := write_file_ok hw
    subst hfs
    subst hset
    constructor
    · intro hpe
      rw [← hb, hpe]
    · have hb1 : (fs.setFile (artifact_filename cfg K (c.ident x)) (c.encode x)).isBroken
          (artifact_filename cfg K (c.ident x)) = false := by
        rw [setFile_broken]; exact hbr
      have hd1 : (fs.setFile (artifact_filename cfg K (c.ident x)) (c.encode x)).isDir
          (artifact_filename cfg K (c.ident x)) = false := by
        rw [setFile_dirs]; exact hdir
      have hd2 : (fs.setFile (artifact_filename cfg K (c.ident x)) (c.encode x)).isDir
          (artifact_filename cfg K (c.ident x)).dropLast = true := by
        rw [setFile_dirs]; exact hparent
      have hw2 : write_file (fs.setFile (artifact_filename cfg K (c.ident x)) (c.encode x))
          (artifact_filename cfg K (c.ident x)) (c.encode x)
          = .ok (fs.setFile (artifact_filename cfg K (c.ident x)) (c.encode x)) := by
        rw [write_file_eq_applyOp]
        simp only [FS.applyOp]
        rw [hb1, hd1, hd2]
        simp [setFile_idem]
      rw [hw2]
      have hpe2 : (fs.setFile (artifact_filename cfg K (c.ident x)) (c.encode x)).pathExists
          (artifact_filename cfg K (c.ident x)) = true := by
        simp [FS.pathExists, FS.isFile, hb1, setFile_lookup]
      rw [hpe2]

/-- Claim C5 (witness): a first put into an empty schemata directory
returns `false`; putting the same artifact again returns `true` and
leaves the state unchanged. -/
theorem addArtifact_put_semantics_witness :
    (false = false)
    ∧ addArtifact ⟨["r"]⟩ .schema natCodec
        ⟨[(["r", "schemata", "x.rgb"], [5])], [["r"], ["r", "schemata"]], []⟩ 5
      = .ok (⟨[(["r", "schemata", "x.rgb"], [5])],
          [["r"], ["r", "schemata"]], []⟩, true) :=
  ⟨(addArtifact_put_semantics ⟨["r"]⟩ .schema natCodec
      ⟨[], [["r"], ["r", "schemata"]], []⟩
      ⟨[(["r", "schemata", "x.rgb"], [5])], [["r"], ["r", "schemata"]], []⟩
      5 false (by decide)).1 (by decide),
   (addArtifact_put_semantics ⟨["r"]⟩ .schema natCodec
      ⟨[], [["r"], ["r", "schemata"]], []⟩
      ⟨[(["r", "schemata", "x.rgb"], [5])], [["r"], ["r", "schemata"]], []⟩
      5 false (by decide)).2⟩

/-- Claim C6: assuming the external codec round-trips, a successful
`put` followed by `get` at the artifact's identifier returns the
artifact unchanged. -/
theorem store_roundtrip {α : Type} (cfg : DiskStorageConfig) (K : Kind)
    (c : Codec α) (fs fs1 : FS) (x : α) (ex : Bool)
    (hdec : c.decode (c.encode x) = some x)
    (hadd : addArtifact cfg K c fs x = .ok (fs1, ex)) :
    getArtifact cfg K c.decode fs1 (c.ident x) = .ok x := by
  simp only [addArtifact] at hadd
  cases hw : write_file fs (artifact_filename cfg K (c.ident x)) (c.encode x) with
  | error e => rw [hw] at hadd; exact absurd hadd (by simp)
  | ok fs2 =>
    rw [hw] at hadd
    simp only [Except.ok.injEq, Prod.mk.injEq] at hadd
    obtain ⟨hfs, _⟩ := hadd
    obtain ⟨hbr, _, _, hset⟩ := write_file_ok hw
    subst hfs
    subst hset
    unfold getArtifact read_file
    rw [setFile_broken, hbr, setFile_lookup]
    simp [hdec]

/-- Claim C6 (witness): round-trip of a concrete artifact through a
concrete store. -/
theorem store_roundtrip_witness :
    getArtifact ⟨["r"]⟩ .schema natCodec.decode
      ⟨[(["r", "schemata", "x.rgb"], [5])], [["r"], ["r", "schemata"]], []⟩
      (natCodec.ident 5) = .ok 5 :=
  store_roundtrip ⟨["r"]⟩ .schema natCodec ⟨[], [["r"], ["r", "schemata"]], []⟩
    ⟨[(["r", "schemata", "x.rgb"], [5])], [["r"], ["r", "schemata"]], []⟩
    5 false (by decide) (by decide)

/-- Claim C4: `get` fails with `NotFound` when the file is absent, with
`Corrupt` when its contents fail to decode, and with `Io` when the path
is inaccessible — three distinct error constructors the caller can
distinguish. -/
theorem getArtifact_error_taxonomy {α : Type} (cfg : DiskStorageConfig)
    (K : Kind) (dec : Bytes → Option α) (fs : FS) (idText : String) :
    (fs.isBroken (artifact_filename cfg K idText) = true →
      getArtifact cfg K dec fs idText = .error .io)
    ∧ (fs.isBroken (artifact_filename cfg K idText) = false →
        fs.lookupFile (artifact_filename cfg K idText) = none →
        getArtifact cfg K dec fs idText = .error .notFound)
    ∧ (∀ b, fs.isBroken (artifact_filename cfg K idText) = false →
        fs.lookupFile (artifact_filename cfg K idText) = some b →
        dec b = none →
        getArtifact cfg K dec fs idText = .error .corrupt) := by
  refine ⟨?_, ?_, ?_⟩
  · intro h
    simp [getArtifact, read_file, h]
  · intro h1 h2
    simp [getArtifact, read_file, h1, h2]
  · intro b h1 h2 h3
    simp [getArtifact, read_file, h1, h2, h3]

/-- Claim C4 (witness): the three error outcomes on concrete stores —
inaccessible path, absent file, undecodable contents. -/
theorem getArtifact_error_taxonomy_witness :
    getArtifact ⟨["r"]⟩ .schema natCodec.decode
      ⟨[], [], [["r", "schemata", "x.rgb"]]⟩ "x" = .error .io
    ∧ getArtifact ⟨["r"]⟩ .schema natCodec.decode ⟨[], [], []⟩ "x"
      = .error .notFound
    ∧ getArtifact ⟨["r"]⟩ .schema natCodec.decode
      ⟨[(["r", "schemata", "x.rgb"], [])], [["r"], ["r", "schemata"]], []⟩ "x"
      = .error .corrupt :=
  ⟨(getArtifact_error_taxonomy ⟨["r"]⟩ .schema natCodec.decode
      ⟨[], [], [["r", "schemata", "x.rgb"]]⟩ "x").1 (by decide),
   (getArtifact_error_taxonomy ⟨["r"]⟩ .schema natCodec.decode
      ⟨[], [], []⟩ "x").2.1 (by decide) (by decide),
   (getArtifact_error_taxonomy ⟨["r"]⟩ .schema natCodec.decode
      ⟨[(["r", "schemata", "x.rgb"], [])], [["r"], ["r", "schemata"]], []⟩
      "x").2.2 [] (by decide) (by decide) (by decide)⟩

theorem replaceFuel_clean_stem (n : Nat) : ∀ stem : List Char,
    stem.length + 4 ≤ n →
    (∀ s ∈ stem.tails, rgbChars.isPrefixOf s = false) →
    replaceFuel rgbChars [] n (stem ++ rgbChars) = stem := by
  induction n with
  | zero => intro stem h _; omega
  | succ n ih =>
    intro stem hlen hno
    cases stem with
    | nil =>
      rw [List.nil_append]
      have h : replaceFuel rgbChars [] (n + 1) rgbChars
          = [] ++ replaceFuel rgbChars [] n [] := rfl
      rw [h, List.nil_append, replaceFuel_nil]
    | cons c rest =>
      rw [List.cons_append]
      by_cases hp : rgbChars.isPrefixOf (c :: (rest ++ rgbChars)) = true
      · exfalso
        have hpre : rgbChars <+: c :: (rest ++ rgbChars) :=
          List.isPrefixOf_iff_prefix.mp hp
        obtain ⟨t, ht⟩ := hpre
        cases rest with
        | nil =>
          simp only [rgbChars, List.nil_append, List.cons_append,
            List.cons.injEq] at ht
          exact absurd ht.2.1 (by decide)
        | cons c2 rest2 =>
          cases rest2 with
          | nil =>
            simp only [rgbChars, List.nil_append, List.cons_append,
              List.cons.injEq] at ht
            exact absurd ht.2.2.1 (by decide)
          | cons c3 rest3 =>
            cases rest3 with
            | nil =>
              simp only [rgbChars, List.nil_append, List.cons_append,
                List.cons.injEq] at ht
              exact absurd ht.2.2.2.1 (by decide)
            | cons c4 rest4 =>
              simp only [rgbChars, List.cons_append, List.cons.injEq] at ht
              obtain ⟨e1, e2, e3, e4, -⟩ := ht
              subst e1; subst e2; subst e3; subst e4
              have hself := hno ('.' :: 'r' :: 'g' :: 'b' :: rest4)
                ((List.mem_tails _ _).mpr (List.suffix_refl _))
              simp [rgbChars, List.isPrefixOf] at hself
      · have hstep : replaceFuel rgbChars [] (n + 1) (c :: (rest ++ rgbChars))
            = c :: replaceFuel rgbChars [] n (rest ++ rgbChars) := by
          simp [replaceFuel, hp]
        rw [hstep]
        have hlen2 : rest.length + 4 ≤ n := by
          simp only [List.length_cons] at hlen; omega
        have hno2 : ∀ s ∈ rest.tails, rgbChars.isPrefixOf s = false := by
          intro s hs
          exact hno s (by rw [List.tails_cons]; exact List.mem_cons_of_mem _ hs)
        rw [ih rest hlen2 hno2]

/-- Claim C3 (counterexample): for the directory entry
`x.rgbz.rgb` — whose stem `x.rgbz` contains the substring `.rgb` — the
listing hands the decoder `xz`, not the stem, because the source strips
via substring replacement (`name.replace(".rgb", "")`) rather than
suffix stripping. -/
theorem schema_ids_substring_replace_cex :
    schema_ids ⟨["r"]⟩ (fun s => some s)
        ⟨[(["r", "schemata", "x.rgbz.rgb"], [0])], [["r"], ["r", "schemata"]], []⟩
      = .ok ["xz"]
    ∧ fileStemStr "x.rgbz.rgb" = "x.rgbz"
    ∧ ("xz" : String) ≠ "x.rgbz" := by decide

/-- Claim C3 (amended): the listing derives the identifier text by
deleting every occurrence of the substring `.rgb` from the filename;
this coincides with stripping exactly the trailing `.rgb` extension
precisely when the stem contains no occurrence of `.rgb`. -/
theorem rustReplace_strips_suffix_of_clean_stem (name : String)
    (stem : List Char) (h1 : name.data = stem ++ rgbChars)
    (h2 : ∀ s ∈ stem.tails, rgbChars.isPrefixOf s = false) :
    rustReplace name ".rgb" "" = String.mk stem := by
  unfold rustReplace
  apply congrArg String.mk
  have hpat : (".rgb" : String).data = rgbChars := by decide
  have hrep : ("" : String).data = [] := rfl
  rw [hpat, hrep, h1]
  apply replaceFuel_clean_stem _ stem _ h2
  simp [rgbChars]

/-- Claim C3 (witness for the amended theorem): a filename with a clean
stem is stripped to exactly its stem. -/
theorem rustReplace_strips_suffix_witness :
    rustReplace "ab.rgb" ".rgb" "" = String.mk ['a', 'b'] :=
  rustReplace_strips_suffix_of_clean_stem "ab.rgb" ['a', 'b']
    (by decide) (by decide)

theorem lookupIdx_append_none {m : IndexMap} {t : Nat}
    (h : lookupIdx m t = none) (n : IndexMap) :
    lookupIdx (m ++ n) t = lookupIdx n t := by
  induction m with
  | nil => rfl
  | cons e m ih =>
    obtain ⟨k, v⟩ := e
    by_cases hk : k = t
    · simp [lookupIdx, hk] at h
    · simp only [lookupIdx, hk, if_false, ite_false, List.cons_append] at h ⊢
      exact ih h

theorem lookupIdx_append_some {m : IndexMap} {t v : Nat}
    (h : lookupIdx m t = some v) (n : IndexMap) :
    lookupIdx (m ++ n) t = some v := by
  induction m with
  | nil => simp [lookupIdx] at h
  | cons e m ih =>
    obtain ⟨k, w⟩ := e
    rw [List.cons_append]
    by_cases hk : k = t
    · simp only [lookupIdx, hk, ite_true] at h ⊢
      exact h
    · simp only [lookupIdx, hk, ite_false] at h ⊢
      exact ih h

theorem lookupIdx_map_const {l : List Nat} {t a : Nat} (h : t ∈ l) :
    lookupIdx (l.map fun s => (s, a)) t = some a := by
  induction l with
  | nil => simp at h
  | cons s l ih =>
    by_cases hs : s = t
    · simp [lookupIdx, hs]
    · have hm : t ∈ l := by
        rcases List.mem_cons.mp h with h' | h'
        · exact absurd h'.symm hs
        · exact h'
      simp only [List.map_cons, lookupIdx, hs, ite_false]
      exact ih hm

/-- Claim C8: after a successful `index_anchor a`, every transition
identifier among the leaves of `a`'s Merkle block resolves through
`anchor_id_by_transition_id` to `a`'s anchor identifier. -/
theorem index_anchor_coverage (m m' : IndexMap) (a : Anchor) (bNew : Bool)
    (h : index_anchor m a = .ok (m', bNew)) :
    ∀ t ∈ a.leaves, anchor_id_by_transition_id m' t = .ok a.anchorId := by
  intro t ht
  simp only [index_anchor] at h
  by_cases hc : (a.leaves.any fun s =>
      match lookupIdx m s with
      | some v => decide (v ≠ a.anchorId)
      | none => false) = true
  · rw [if_pos hc] at h
    exact absurd h (by simp)
  · rw [if_neg hc] at h
    simp only [Except.ok.injEq, Prod.mk.injEq] at h
    obtain ⟨hm', -⟩ := h
    have hnc := List.any_eq_false.mp (by simpa using hc) t ht
    cases hlk : lookupIdx m t with
    | some v =>
      rw [hlk] at hnc
      have hv : v = a.anchorId := by simpa using hnc
      subst hv
      unfold anchor_id_by_transition_id
      rw [← hm', lookupIdx_append_some hlk]
    | none =>
      have htf : t ∈ a.leaves.filter fun s => (lookupIdx m s).isNone :=
        List.mem_filter.mpr ⟨ht, by simp [hlk]⟩
      unfold anchor_id_by_transition_id
      rw [← hm', lookupIdx_append_none hlk, lookupIdx_map_const htf]

/-- Claim C8 (witness): indexing an anchor with two leaves makes each
leaf resolve to the anchor's identifier. -/
theorem index_anchor_coverage_witness :
    anchor_id_by_transition_id [(1, 7), (2, 7)] 2 = .ok 7 :=
  index_anchor_coverage [] [(1, 7), (2, 7)] ⟨7, [1, 2]⟩ true (by decide)
    2 (by decide)

end RgbStash
